import Mathlib

/-!
# Verification of the furl icon-rendering scripts

Shallow embedding of the raster-composition behavior of the Python icon
scripts (`create_custom_icon.py`, `convert_svg_icon.py`, `create_icon.py`,
`create_emoji_icon.py`, `create_gold_icon.py`, `create_visible_icon.py`,
`create_store_assets.py`, `create_android_icons.py`).

Conventions of the embedding:
* Python's `int(...)` applied to the nonnegative channel expressions used by
  the scripts is truncation toward zero, i.e. the floor; every channel
  expression `int(a + (b - a) * i / n)` is therefore embedded as the exact
  natural-number division `(a * (n - i) + b * i) / n`.  Arithmetic is
  modelled exactly over `ℕ`/`ℚ` (IEEE float rounding inside Python is not
  modelled).
* A filled circle of radius `ρ` centered at the gradient center covers the
  pixel at squared distance `d2` from the center iff `d2 ≤ ρ²` (the filled
  ellipse membership test of the primitive drawer).  All gradient circles
  are drawn fully opaque, so compositing a later circle simply overwrites
  the pixels it covers.
-/

namespace Furl

/-- An RGBA color; each channel is an integer in `[0, 255]`. -/
structure Color where
  r : ℕ
  g : ℕ
  b : ℕ
  a : ℕ
deriving DecidableEq, Repr

/-- The truncating channel interpolation the scripts actually compute:
`int(a * (1 - i/n) + b * (i/n))` = `int(a + (b - a) * i / n)`, which for the
nonnegative values in range equals `⌊(a*(n-i) + b*i) / n⌋`, i.e. natural
division of the exact numerator by `n`. -/
def intLerp (a b i n : ℕ) : ℕ := (a * (n - i) + b * i) / n

/-- Round-to-nearest channel interpolation as the specification words it:
`round(a * (1 - t) + b * t)` at `t = i / n`, with half rounding up:
`⌊(a*(n-i) + b*i) / n + 1/2⌋ = (2*(a*(n-i) + b*i) + n) / (2*n)`. -/
def roundLerp (a b i n : ℕ) : ℕ := (2 * (a * (n - i) + b * i) + n) / (2 * n)

/-- `create_custom_icon.py`: channel colors of gradient iteration `i`
(`ratio = i / radius`, channels `int(101 + 38*ratio)`, `int(99 - 7*ratio)`,
`int(229 + 17*ratio)`, alpha 255). -/
def customColor (radius i : ℕ) : Color :=
  ⟨intLerp 101 139 i radius, intLerp 99 92 i radius, intLerp 229 246 i radius, 255⟩

/-- `create_custom_icon.py` gradient loop: `for i in range(radius)` draws the
filled circle of radius `i` (bbox `[center-i, center-i, center+i, center+i]`)
with color `customColor radius i`.  Listed in draw order as
(circle radius, color) pairs. -/
def customDraw (radius : ℕ) : List (ℕ × Color) :=
  (List.range radius).map fun i => (i, customColor radius i)

/-- `convert_svg_icon.py` / `create_emoji_icon.py`: channel colors of
gradient iteration `i` (`factor = i / radius`, channels
`int(79*(1-factor) + 124*factor)`, `int(70*(1-factor) + 58*factor)`,
`int(229*(1-factor) + 237*factor)`, alpha 255). -/
def svgColor (radius i : ℕ) : Color :=
  ⟨intLerp 79 124 i radius, intLerp 70 58 i radius, intLerp 229 237 i radius, 255⟩

/-- `convert_svg_icon.py` gradient loop: `for i in range(radius)` draws the
filled circle with bbox `[center-radius+i, ..., center+radius-i]`, i.e. of
radius `radius - i`, colored `svgColor radius i`.  Listed in draw order. -/
def svgDraw (radius : ℕ) : List (ℕ × Color) :=
  (List.range radius).map fun i => (radius - i, svgColor radius i)

/-- `create_icon.py`: channel colors of gradient iteration `i`
(channels `int(79 + 37*i/center)`, `int(70 - 12*i/center)`,
`int(229 + 8*i/center)`, alpha 255). -/
def createIconColor (c i : ℕ) : Color :=
  ⟨intLerp 79 116 i c, intLerp 70 58 i c, intLerp 229 237 i c, 255⟩

/-- `create_icon.py` gradient loop: `for i in range(center)` draws the filled
circle of radius `i` colored `createIconColor center i`. -/
def createIconDraw (c : ℕ) : List (ℕ × Color) :=
  (List.range c).map fun i => (i, createIconColor c i)

/-- Final color of the pixel at squared distance `d2` from the gradient
center after replaying a list of fully opaque concentric filled circles in
draw order: each circle of radius `ρ` overwrites the pixel iff `d2 ≤ ρ²`
(filled-ellipse membership, specialized to circles).  `none` means the pixel
was never painted. -/
def paintAt (d2 : ℕ) (ops : List (ℕ × Color)) : Option Color :=
  ops.foldl (fun acc op => if d2 ≤ op.1 * op.1 then some op.2 else acc) none

theorem paintAt_append (d2 : ℕ) (l₁ l₂ : List (ℕ × Color)) :
    paintAt d2 (l₁ ++ l₂) =
      l₂.foldl (fun acc op => if d2 ≤ op.1 * op.1 then some op.2 else acc)
        (paintAt d2 l₁) := by
  simp [paintAt, List.foldl_append]

theorem foldl_no_hit (d2 : ℕ) (l : List (ℕ × Color))
    (hl : ∀ op ∈ l, ¬ d2 ≤ op.1 * op.1) (acc : Option Color) :
    l.foldl (fun acc op => if d2 ≤ op.1 * op.1 then some op.2 else acc) acc
      = acc := by
  induction l generalizing acc with
  | nil => rfl
  | cons x xs ih =>
      have hx : ¬ d2 ≤ x.1 * x.1 := hl x (List.mem_cons_self x xs)
      simp only [List.foldl_cons, if_neg hx]
      exact ih (fun op hop => hl op (List.mem_cons_of_mem x hop)) acc

theorem paintAt_snoc (d2 : ℕ) (l : List (ℕ × Color)) (op : ℕ × Color) :
    paintAt d2 (l ++ [op]) =
      if d2 ≤ op.1 * op.1 then some op.2 else paintAt d2 l := by
  simp [paintAt_append]

/-- C10: in `create_custom_icon.py` and `create_icon.py` the loop index `i`
increases from `0` to `radius - 1`, each iteration drawing the filled circle
of radius `i`, so every later, larger circle completely covers all earlier
smaller ones; after the loop, every pixel of the disc of radius `radius - 1`
holds the single color of the last iteration,
`lerp(colorA, colorB, (radius-1)/radius)` with truncating `int` conversion:
a solid near-`colorB` disc, not a multi-band gradient. -/
theorem increasing_ring_stack_final_color (radius d2 : ℕ) (h1 : 1 ≤ radius)
    (h2 : d2 ≤ (radius - 1) * (radius - 1)) :
    paintAt d2 (customDraw radius) = some (customColor radius (radius - 1)) ∧
    paintAt d2 (createIconDraw radius) =
      some (createIconColor radius (radius - 1)) := by
  obtain ⟨n, rfl⟩ : ∃ n, radius = n + 1 := ⟨radius - 1, by omega⟩
  have hn : n + 1 - 1 = n := rfl
  rw [hn] at h2 ⊢
  constructor
  · rw [customDraw, List.range_succ, List.map_append, List.map_cons,
      List.map_nil, paintAt_snoc, if_pos h2]
  · rw [createIconDraw, List.range_succ, List.map_append, List.map_cons,
      List.map_nil, paintAt_snoc, if_pos h2]

/-- Witness for `increasing_ring_stack_final_color`: after
`create_custom_icon.py`'s loop with its actual radius 480, the center pixel
holds the last-iteration color `(138, 92, 245)` (near the light endpoint
`(139, 92, 246)`), and after `create_icon.py`'s loop (center 512) it holds
`(115, 58, 236)` (near `(116, 58, 237)`). -/
theorem increasing_ring_stack_final_color_witness :
    (1 ≤ 480 ∧ 0 ≤ 479 * 479) ∧
    paintAt 0 (customDraw 480) = some ⟨138, 92, 245, 255⟩ ∧
    paintAt 0 (createIconDraw 512) = some ⟨115, 58, 236, 255⟩ := by
  refine ⟨⟨by decide, by decide⟩, ?_, ?_⟩
  · rw [(increasing_ring_stack_final_color 480 0 (by decide) (by decide)).1]
    decide
  · rw [(increasing_ring_stack_final_color 512 0 (by decide) (by decide)).2]
    decide

/-- C1 counterexample: `create_custom_icon.py`'s gradient loop draws its
circles with radii `0, 1, 2, ...` in *increasing* order (here at radius 3:
`[0, 1, 2]`), not in the strictly decreasing order `radius` down to `0`
required by the claim. -/
theorem customIcon_radii_not_decreasing :
    (customDraw 3).map Prod.fst = [0, 1, 2] ∧
    ¬ List.Pairwise (fun a b : ℕ => b < a) ((customDraw 3).map Prod.fst) := by
  refine ⟨by decide, fun hpw => ?_⟩
  have h01 := List.pairwise_iff_get.mp hpw
    ⟨0, by decide⟩ ⟨1, by decide⟩ (by decide)
  simp [customDraw] at h01

/-- C1 amended: only `convert_svg_icon.py` draws its gradient circles in
strictly decreasing radius order, from `radius` down to `1` (radius `0` is
never drawn), and the circle of radius `ρ` there carries the color
interpolated at `t = (radius - ρ)/radius` (truncating), so larger circles
are near `colorA`; `create_custom_icon.py` instead draws its circles in
strictly increasing radius order `0, ..., radius - 1`. -/
theorem gradient_ring_order (radius : ℕ) :
    List.Pairwise (fun a b : ℕ => b < a) ((svgDraw radius).map Prod.fst) ∧
    (∀ p ∈ svgDraw radius,
      p.2 = svgColor radius (radius - p.1) ∧ 1 ≤ p.1 ∧ p.1 ≤ radius) ∧
    List.Pairwise (fun a b : ℕ => a < b) ((customDraw radius).map Prod.fst) := by
  refine ⟨?_, ?_, ?_⟩
  · rw [List.pairwise_iff_get]
    intro i j hij
    have hi := i.isLt
    have hj := j.isLt
    simp only [List.length_map, svgDraw, List.length_map, List.length_range]
      at hi hj
    simp only [svgDraw, List.get_map, List.get_range]
    omega
  · intro p hp
    simp only [svgDraw, List.mem_map, List.mem_range] at hp
    obtain ⟨i, hi, rfl⟩ := hp
    refine ⟨?_, by omega, by omega⟩
    have : radius - (radius - i) = i := by omega
    rw [this]
  · rw [List.pairwise_iff_get]
    intro i j hij
    have hi := i.isLt
    have hj := j.isLt
    simp only [List.length_map, customDraw, List.length_range] at hi hj
    simp only [customDraw, List.get_map, List.get_range]
    omega

/-- Witness for `gradient_ring_order`: in `convert_svg_icon.py` with its
actual radius 480, the first drawn element is the full circle of radius 480
colored with `colorA = (79, 70, 229)`, and it satisfies the stated ring
characterization. -/
theorem gradient_ring_order_witness :
    (480, svgColor 480 0) ∈ svgDraw 480 ∧
    (480, svgColor 480 0).2 = svgColor 480 (480 - (480, svgColor 480 0).1) ∧
    svgColor 480 0 = ⟨79, 70, 229, 255⟩ := by
  have hmem : (480, svgColor 480 0) ∈ svgDraw 480 := by
    simp only [svgDraw, List.mem_map, List.mem_range]
    exact ⟨0, by omega, rfl⟩
  exact ⟨hmem, ((gradient_ring_order 480).2.1 _ hmem).1, by decide⟩

theorem intLerp_le_roundLerp (a b i n : ℕ) :
    intLerp a b i n ≤ roundLerp a b i n := by
  rcases Nat.eq_zero_or_pos n with h | h
  · simp [intLerp, roundLerp, h]
  · unfold intLerp roundLerp
    calc (a * (n - i) + b * i) / n
        = 2 * (a * (n - i) + b * i) / (2 * n) :=
          (Nat.mul_div_mul_left _ n (by omega)).symm
      _ ≤ (2 * (a * (n - i) + b * i) + n) / (2 * n) :=
          Nat.div_le_div_right (by omega)

theorem roundLerp_le_intLerp_add_one (a b i n : ℕ) :
    roundLerp a b i n ≤ intLerp a b i n + 1 := by
  rcases Nat.eq_zero_or_pos n with h | h
  · simp [intLerp, roundLerp, h]
  · unfold intLerp roundLerp
    calc (2 * (a * (n - i) + b * i) + n) / (2 * n)
        ≤ (2 * (a * (n - i) + b * i) + 2 * n) / (2 * n) :=
          Nat.div_le_div_right (by omega)
      _ = 2 * (a * (n - i) + b * i) / (2 * n) + 1 :=
          Nat.add_div_right _ (by omega)
      _ = (a * (n - i) + b * i) / n + 1 := by
          rw [Nat.mul_div_mul_left _ n (by omega)]

/-- The final painted color of `convert_svg_icon.py`'s ring gradient at a
pixel whose squared distance `d2` from the center satisfies
`(k-1)² < d2 ≤ k²` (i.e. whose radial distance has ceiling `k`, with
`1 ≤ k ≤ radius`): the last circle drawn over it is the one of radius `k`,
whose loop index is `radius - k`. -/
theorem svg_paintAt (radius k d2 : ℕ) (hk1 : 1 ≤ k) (hk : k ≤ radius)
    (hd1 : (k - 1) * (k - 1) < d2) (hd2 : d2 ≤ k * k) :
    paintAt d2 (svgDraw radius) = some (svgColor radius (radius - k)) := by
  obtain ⟨j, rfl⟩ : ∃ j, radius = (j + 1) + (k - 1) := ⟨radius - k, by omega⟩
  have hjk : (j + 1) + (k - 1) - k = j := by omega
  rw [hjk]
  unfold svgDraw
  rw [List.range_add, List.map_append, paintAt_append, List.map_map,
    foldl_no_hit]
  · rw [List.range_succ, List.map_append, List.map_cons, List.map_nil,
      paintAt_snoc]
    have hρ : (j + 1) + (k - 1) - j = k := by omega
    rw [hρ, if_pos hd2]
  · intro op hop
    simp only [List.mem_map, List.mem_range, Function.comp] at hop
    obtain ⟨m, hm, rfl⟩ := hop
    have : (j + 1) + (k - 1) - (j + 1 + m) ≤ k - 1 := by omega
    simp only [not_le]
    calc ((j + 1) + (k - 1) - (j + 1 + m)) * ((j + 1) + (k - 1) - (j + 1 + m))
        ≤ (k - 1) * (k - 1) := Nat.mul_le_mul this this
      _ < d2 := hd1

/-- C2 counterexample: in `convert_svg_icon.py`'s gradient (colors
`(79,70,229) → (124,58,237)`, radius 240), the pixel at exact radial
distance 240 (squared distance `240²`) is painted `(79, 70, 229)` — the
*colorA* endpoint — whereas the claim demands
`lerp(colorA, colorB, ceil(240)/240) = (124, 58, 237)` within ±1 per
channel; the red channel is off by 45. -/
theorem svg_gradient_edge_color_mismatch :
    paintAt (240 * 240) (svgDraw 240) = some ⟨79, 70, 229, 255⟩ ∧
    roundLerp 79 124 240 240 = 124 ∧
    ¬ roundLerp 79 124 240 240 ≤ 79 + 1 := by
  refine ⟨?_, by decide, by decide⟩
  rw [svg_paintAt 240 240 (240 * 240) (by decide) (by decide) (by decide)
    (by decide)]
  decide

/-- C2 amended: for the radius-240 ring gradient of `convert_svg_icon.py`
with `colorA = (79,70,229)` and `colorB = (124,58,237)`, the pixel at exact
radial distance `d > 0` equals `lerp(colorA, colorB, 1 - ceil(d)/240)`
within ±1 per channel — stated for the pixel's squared center distance `d2`
with `ceil d = k` — and the exact center (`d2 = 0`) is painted the ring-1
color `svgColor 240 239 = (123, 58, 236)`, within ±1 per channel of
`colorB`: the *center* approaches `colorB` and the outer edge is `colorA`,
the reverse orientation of the original claim. -/
theorem svg_gradient_final_color (k d2 : ℕ) (hk1 : 1 ≤ k) (hk : k ≤ 240)
    (hd1 : (k - 1) * (k - 1) < d2) (hd2 : d2 ≤ k * k) :
    (paintAt d2 (svgDraw 240) = some (svgColor 240 (240 - k)) ∧
      (svgColor 240 (240 - k)).r ≤ roundLerp 79 124 (240 - k) 240 ∧
      roundLerp 79 124 (240 - k) 240 ≤ (svgColor 240 (240 - k)).r + 1 ∧
      (svgColor 240 (240 - k)).g ≤ roundLerp 70 58 (240 - k) 240 ∧
      roundLerp 70 58 (240 - k) 240 ≤ (svgColor 240 (240 - k)).g + 1 ∧
      (svgColor 240 (240 - k)).b ≤ roundLerp 229 237 (240 - k) 240 ∧
      roundLerp 229 237 (240 - k) 240 ≤ (svgColor 240 (240 - k)).b + 1) ∧
    (paintAt 0 (svgDraw 240) = some (svgColor 240 239) ∧
      svgColor 240 239 = ⟨123, 58, 236, 255⟩ ∧
      (svgColor 240 239).r ≤ 124 ∧ 124 ≤ (svgColor 240 239).r + 1 ∧
      (svgColor 240 239).g ≤ 58 ∧ 58 ≤ (svgColor 240 239).g + 1 ∧
      (svgColor 240 239).b ≤ 237 ∧ 237 ≤ (svgColor 240 239).b + 1) := by
  refine ⟨⟨svg_paintAt 240 k d2 hk1 hk hd1 hd2,
    intLerp_le_roundLerp _ _ _ _, roundLerp_le_intLerp_add_one _ _ _ _,
    intLerp_le_roundLerp _ _ _ _, roundLerp_le_intLerp_add_one _ _ _ _,
    intLerp_le_roundLerp _ _ _ _, roundLerp_le_intLerp_add_one _ _ _ _⟩,
    ?_, by decide, by decide, by decide, by decide, by decide, by decide,
    by decide⟩
  decide

/-- Witness for `svg_gradient_final_color`: the pixel at radial distance 1
(squared distance 1, so `k = 1`) is painted the innermost ring color
`(123, 58, 236)`, within ±1 per channel of `colorB = (124, 58, 237)`
(`t = 1 - 1/240`), and the exact center pixel (`d2 = 0`) is painted that
same ring-1 color. -/
theorem svg_gradient_final_color_witness :
    (1 ≤ 1 ∧ 1 ≤ 240 ∧ 0 * 0 < 1 ∧ 1 ≤ 1 * 1) ∧
    paintAt 1 (svgDraw 240) = some ⟨123, 58, 236, 255⟩ ∧
    paintAt 0 (svgDraw 240) = some ⟨123, 58, 236, 255⟩ := by
  refine ⟨⟨by decide, by decide, by decide, by decide⟩, ?_, ?_⟩
  · rw [(svg_gradient_final_color 1 1 (by decide) (by decide) (by decide)
      (by decide)).1.1]
    decide
  · rw [(svg_gradient_final_color 1 1 (by decide) (by decide) (by decide)
      (by decide)).2.1]
    decide

/-- `create_emoji_icon.py` padlock-body gradient: row `y` of a body of
height `h` blends `gold_body = (255, 215, 0)` toward
`gold_dark = (218, 165, 32)` with `blend = y / h` and `int()` conversion. -/
def emojiBodyRowColor (h y : ℕ) : Color :=
  ⟨intLerp 255 218 y h, intLerp 215 165 y h, intLerp 0 32 y h, 255⟩

/-- Normalization of a `[0, 255]` channel to `[0, 1]`. -/
def q255 (c : ℕ) : ℚ := (c : ℚ) / 255

/-- Round a nonnegative rational to the nearest natural (half up). -/
def roundQ (q : ℚ) : ℕ := ⌊q + 1 / 2⌋₊

/-- Normalized src-over output alpha: `outA = srcA + dstA·(1-srcA)`. -/
def srcOverA (dst src : Color) : ℚ :=
  q255 src.a + q255 dst.a * (1 - q255 src.a)

/-- Normalized src-over output channel, rescaled to `[0, 255]`:
`(srcC·srcA + dstC·dstA·(1-srcA)) / outA · 255`. -/
def srcOverC (dst src : Color) (sc dc : ℕ) : ℚ :=
  (q255 sc * q255 src.a + q255 dc * q255 dst.a * (1 - q255 src.a))
    / srcOverA dst src * 255

/-- Modelled from the spec: the Compositor's src-over `blend` operation
(§4.1) — the pixel-compositing primitive itself lives in the external
imaging library, not in the repository sources.  Channels are normalized to
`[0, 1]`, blended by `outA = srcA + dstA·(1-srcA)`,
`outRGB = (srcRGB·srcA + dstRGB·dstA·(1-srcA)) / outA`, and written back as
`[0, 255]` integers rounded to nearest; if `outA = 0` the result is
`(0,0,0,0)`. -/
def blend (dst src : Color) : Color :=
  if srcOverA dst src = 0 then ⟨0, 0, 0, 0⟩
  else
    ⟨roundQ (srcOverC dst src src.r dst.r),
     roundQ (srcOverC dst src src.g dst.g),
     roundQ (srcOverC dst src src.b dst.b),
     roundQ (srcOverA dst src * 255)⟩

theorem roundQ_natCast (n : ℕ) : roundQ (n : ℚ) = n := by
  unfold roundQ
  rw [Nat.floor_eq_iff (by positivity)]
  constructor
  · linarith
  · linarith

/-- C4: src-over compositing of a fully opaque source yields exactly the
source color, for every destination pixel — in particular over a fully
transparent pixel (exact identity, no rounding drift) — and painting an
opaque layer B after an opaque layer A leaves exactly B's color, never a
blend. -/
theorem blend_full_alpha_identity (dst aColor src : Color)
    (h : src.a = 255) :
    blend dst src = src ∧ blend (blend dst aColor) src = src := by
  have key : ∀ d : Color, blend d src = src := by
    intro d
    have hsa : q255 src.a = 1 := by
      rw [h]; unfold q255; norm_num
    have hA : srcOverA d src = 1 := by
      unfold srcOverA; rw [hsa]; ring
    have hC : ∀ sc dc : ℕ, srcOverC d src sc dc = (sc : ℚ) := by
      intro sc dc
      unfold srcOverC
      rw [hsa, hA]
      unfold q255
      field_simp
    have hcast : ∀ sc dc : ℕ, roundQ (srcOverC d src sc dc) = sc := by
      intro sc dc
      rw [hC, roundQ_natCast]
    have ha : roundQ (srcOverA d src * 255) = src.a := by
      rw [hA, h, one_mul]
      have : ((255 : ℚ)) = ((255 : ℕ) : ℚ) := by norm_num
      rw [this, roundQ_natCast]
    unfold blend
    rw [if_neg (by rw [hA]; norm_num), hcast, hcast, hcast, ha]
  exact ⟨key dst, key (blend dst aColor)⟩

/-- Witness for `blend_full_alpha_identity`: compositing the opaque color
`(12, 34, 56, 255)` over the transparent pixel `(0,0,0,0)` — and after an
opaque white layer — gives back exactly `(12, 34, 56, 255)`. -/
theorem blend_full_alpha_identity_witness :
    (Color.a ⟨12, 34, 56, 255⟩ = 255) ∧
    blend ⟨0, 0, 0, 0⟩ ⟨12, 34, 56, 255⟩ = ⟨12, 34, 56, 255⟩ ∧
    blend (blend ⟨0, 0, 0, 0⟩ ⟨255, 255, 255, 255⟩) ⟨12, 34, 56, 255⟩
      = ⟨12, 34, 56, 255⟩ := by
  exact ⟨rfl,
    (blend_full_alpha_identity ⟨0, 0, 0, 0⟩ ⟨255, 255, 255, 255⟩
      ⟨12, 34, 56, 255⟩ rfl).1,
    (blend_full_alpha_identity ⟨0, 0, 0, 0⟩ ⟨255, 255, 255, 255⟩
      ⟨12, 34, 56, 255⟩ rfl).2⟩

/-- `create_store_assets.py`: `app_icon.putalpha(mask)` — the canvas's
alpha band is *replaced* wholesale by the mask values (pixelwise, as far as
both lists reach); the R, G, B channels are untouched. -/
def applyAlphaMask (canvas : List Color) (mask : List ℕ) : List Color :=
  List.zipWith (fun p m => ⟨p.r, p.g, p.b, m⟩) canvas mask

/-- The multiplicative alpha-mask semantics the claim describes, for
comparison: each pixel's alpha is multiplied by `mask/255` (truncating).
Follows the spec's words, not the source. -/
def mulAlphaMask (canvas : List Color) (mask : List ℕ) : List Color :=
  List.zipWith (fun p m => ⟨p.r, p.g, p.b, p.a * m / 255⟩) canvas mask

/-- C5 counterexample: applying a mask value of 255 to an
already-transparent pixel `(10, 20, 30, 0)` makes it fully opaque
(`putalpha` replaces the alpha band), whereas the claimed multiplicative
semantics would keep it transparent (`0·255/255 = 0`). -/
theorem applyAlphaMask_not_multiplicative :
    applyAlphaMask [⟨10, 20, 30, 0⟩] [255] = [⟨10, 20, 30, 255⟩] ∧
    mulAlphaMask [⟨10, 20, 30, 0⟩] [255] = [⟨10, 20, 30, 0⟩] ∧
    applyAlphaMask [⟨10, 20, 30, 0⟩] [255]
      ≠ mulAlphaMask [⟨10, 20, 30, 0⟩] [255] := by
  decide

/-- C5 amended: `applyAlphaMask` *replaces* each pixel's alpha with the
corresponding mask value — ignoring the previous alpha entirely, so an
already-transparent pixel becomes opaque where the mask is 255 — and leaves
every pixel's R, G, B channels unchanged. -/
theorem applyAlphaMask_replaces_alpha (canvas : List Color) (mask : List ℕ)
    (i : ℕ) (p : Color) (m : ℕ)
    (hp : canvas.get? i = some p) (hm : mask.get? i = some m) :
    (applyAlphaMask canvas mask).get? i = some ⟨p.r, p.g, p.b, m⟩ := by
  induction canvas generalizing mask i with
  | nil => simp at hp
  | cons c cs ih =>
      cases mask with
      | nil => simp at hm
      | cons a as =>
          cases i with
          | zero =>
              simp only [List.get?] at hp hm
              obtain rfl : c = p := by injection hp
              obtain rfl : a = m := by injection hm
              rfl
          | succ n =>
              simp only [List.get?] at hp hm
              simpa [applyAlphaMask] using ih as n hp hm

/-- Witness for `applyAlphaMask_replaces_alpha`: the pixel `(1, 2, 3, 4)`
under mask value 100 keeps its RGB and gets alpha 100. -/
theorem applyAlphaMask_replaces_alpha_witness :
    ([(⟨1, 2, 3, 4⟩ : Color)].get? 0 = some ⟨1, 2, 3, 4⟩ ∧
      [100].get? 0 = some 100) ∧
    (applyAlphaMask [⟨1, 2, 3, 4⟩] [100]).get? 0 = some ⟨1, 2, 3, 100⟩ := by
  exact ⟨⟨rfl, rfl⟩,
    applyAlphaMask_replaces_alpha [⟨1, 2, 3, 4⟩] [100] 0 ⟨1, 2, 3, 4⟩ 100
      rfl rfl⟩

/-- Membership of pixel `(x, y)` in the filled bbox `[0, w] × [0, h]`
(coordinates relative to the rectangle's top-left corner). -/
def inRect (w h x y : ℤ) : Prop := 0 ≤ x ∧ x ≤ w ∧ 0 ≤ y ∧ y ≤ h

/-- `create_gold_icon.py` corner punch-out (strategy a): the body rectangle
is filled, then a background-colored disc of radius `r` (`corner_size`) is
painted centered at each of the four rectangle *corner points*; a pixel
still shows the fill color iff it is in the rectangle and escapes all four
discs (disc membership by the filled-ellipse test of §4.3, the rasterizer
itself being external). -/
def punchKeep (w h r x y : ℤ) : Prop :=
  inRect w h x y ∧
  ¬ (x * x + y * y ≤ r * r ∨ (x - w) * (x - w) + y * y ≤ r * r ∨
     x * x + (y - h) * (y - h) ≤ r * r ∨
     (x - w) * (x - w) + (y - h) * (y - h) ≤ r * r)

/-- Modelled from the spec: strategy (b), the per-pixel ellipse-corner
membership test (§4.3, backing `draw.rounded_rectangle` in
`create_visible_icon.py`, whose rasterizer is external): a bbox pixel is
kept unless it falls in one of the four `r × r` corner squares and lies
outside the quarter-disc around that corner's inset center. -/
def roundKeep (w h r x y : ℤ) : Prop :=
  inRect w h x y ∧
  ((x < r ∧ y < r) → (x - r) * (x - r) + (y - r) * (y - r) ≤ r * r) ∧
  ((w - r < x ∧ y < r) →
    (x - (w - r)) * (x - (w - r)) + (y - r) * (y - r) ≤ r * r) ∧
  ((x < r ∧ h - r < y) →
    (x - r) * (x - r) + (y - (h - r)) * (y - (h - r)) ≤ r * r) ∧
  ((w - r < x ∧ h - r < y) →
    (x - (w - r)) * (x - (w - r)) + (y - (h - r)) * (y - (h - r)) ≤ r * r)

instance (w h x y : ℤ) : Decidable (inRect w h x y) := by
  unfold inRect; infer_instance

instance (w h r x y : ℤ) : Decidable (punchKeep w h r x y) := by
  unfold punchKeep; infer_instance

instance (w h r x y : ℤ) : Decidable (roundKeep w h r x y) := by
  unfold roundKeep; infer_instance

/-- C6 counterexample: on a 100×100 rectangle with corner radius 5, the
pixel `(3, 3)` is kept by the ellipse-corner membership test (it is within
distance 5 of the inset center `(5, 5)`), but the punch-out strategy of
`create_gold_icon.py` erases it (it is within distance 5 of the corner
point `(0, 0)`): the two corner strategies are not pixel-identical. -/
theorem corner_strategies_differ :
    roundKeep 100 100 5 3 3 ∧ ¬ punchKeep 100 100 5 3 3 := by
  decide

/-- C6 amended: the two corner strategies agree only away from the corner
squares — on every pixel outside all four `r × r` corner squares their
verdicts coincide (both reduce to plain bbox membership) — while inside a
corner square the punch-out keeps the pixels *farther* than `r` from the
corner point, the membership test those *within* `r` of the inset center,
and the two disagree (e.g. at `(3, 3)` for `r = 5`). -/
theorem corner_strategies_agree_off_corners (w h r x y : ℤ) (hr : 0 < r)
    (h1 : ¬ (x ≤ r ∧ y ≤ r)) (h2 : ¬ (w - r ≤ x ∧ y ≤ r))
    (h3 : ¬ (x ≤ r ∧ h - r ≤ y)) (h4 : ¬ (w - r ≤ x ∧ h - r ≤ y)) :
    punchKeep w h r x y ↔ roundKeep w h r x y := by
  have sq : ∀ u v : ℤ, u * u + v * v ≤ r * r →
      (-r ≤ u ∧ u ≤ r) ∧ (-r ≤ v ∧ v ≤ r) := by
    intro u v huv
    refine ⟨⟨?_, ?_⟩, ?_, ?_⟩ <;>
      nlinarith [mul_self_nonneg u, mul_self_nonneg v,
        mul_self_nonneg (u + r), mul_self_nonneg (u - r),
        mul_self_nonneg (v + r), mul_self_nonneg (v - r)]
  unfold punchKeep roundKeep
  constructor
  · rintro ⟨hin, -⟩
    refine ⟨hin, ?_, ?_, ?_, ?_⟩ <;> intro hg
    · exact absurd ⟨le_of_lt hg.1, le_of_lt hg.2⟩ h1
    · exact absurd ⟨le_of_lt hg.1, le_of_lt hg.2⟩ h2
    · exact absurd ⟨le_of_lt hg.1, le_of_lt hg.2⟩ h3
    · exact absurd ⟨le_of_lt hg.1, le_of_lt hg.2⟩ h4
  · rintro ⟨hin, -⟩
    refine ⟨hin, ?_⟩
    rintro (hd | hd | hd | hd)
    · obtain ⟨⟨-, hu⟩, -, hv⟩ := sq _ _ hd
      exact h1 ⟨hu, hv⟩
    · obtain ⟨⟨hu, -⟩, -, hv⟩ := sq _ _ hd
      exact h2 ⟨by omega, hv⟩
    · obtain ⟨⟨-, hu⟩, hv, -⟩ := sq _ _ hd
      exact h3 ⟨hu, by omega⟩
    · obtain ⟨⟨hu, -⟩, hv, -⟩ := sq _ _ hd
      exact h4 ⟨by omega, by omega⟩

/-- Witness for `corner_strategies_agree_off_corners`: at the interior
pixel `(50, 50)` of the 100×100 rectangle with radius 5 — outside all four
corner squares — the two strategies agree. -/
theorem corner_strategies_agree_off_corners_witness :
    ((0 : ℤ) < 5 ∧ ¬ ((50 : ℤ) ≤ 5 ∧ (50 : ℤ) ≤ 5) ∧
      ¬ ((100 : ℤ) - 5 ≤ 50 ∧ (50 : ℤ) ≤ 5) ∧
      ¬ ((50 : ℤ) ≤ 5 ∧ (100 : ℤ) - 5 ≤ 50) ∧
      ¬ ((100 : ℤ) - 5 ≤ 50 ∧ (100 : ℤ) - 5 ≤ 50)) ∧
    (punchKeep 100 100 5 50 50 ↔ roundKeep 100 100 5 50 50) := by
  exact ⟨⟨by decide, by decide, by decide, by decide, by decide⟩,
    corner_strategies_agree_off_corners 100 100 5 50 50 (by decide)
      (by decide) (by decide) (by decide) (by decide)⟩

/-- Python's `range(a, b)` over the integers. -/
def pyRange (a b : ℤ) : List ℤ :=
  (List.range (b - a).toNat).map fun (i : ℕ) => a + (i : ℤ)

theorem mem_pyRange (a b x : ℤ) : x ∈ pyRange a b ↔ a ≤ x ∧ x < b := by
  unfold pyRange
  simp only [List.mem_map, List.mem_range]
  constructor
  · rintro ⟨i, hi, rfl⟩
    omega
  · rintro ⟨h1, h2⟩
    exact ⟨(x - a).toNat, by omega, by omega⟩

/-- `create_gold_icon.py` text outline: the offsets `(adj_x, adj_y)` at
which the outline text is drawn — both coordinates run over `range(-4, 5)`
and the pair `(0, 0)` is skipped by the `if adj_x != 0 or adj_y != 0`
guard. -/
def goldOutlineOffsets : List (ℤ × ℤ) :=
  (pyRange (-4) 5).bind fun dx =>
    (pyRange (-4) 5).filterMap fun dy =>
      if dx ≠ 0 ∨ dy ≠ 0 then some (dx, dy) else none

/-- `create_visible_icon.py` text outline: both coordinates run over
`range(-3, 4)` with *no* center exclusion. -/
def visibleOutlineOffsets : List (ℤ × ℤ) :=
  (pyRange (-3) 4).bind fun dx =>
    (pyRange (-3) 4).map fun dy => (dx, dy)

/-- `create_gold_icon.py` text paint sequence: all outline passes in black,
then the fill pass in white at offset `(0, 0)`, drawn last. -/
def goldTextPasses : List ((ℤ × ℤ) × Color) :=
  (goldOutlineOffsets.map fun o => (o, ⟨0, 0, 0, 255⟩)) ++
    [((0, 0), ⟨255, 255, 255, 255⟩)]

/-- `create_visible_icon.py` text paint sequence: all outline passes in
white, then the fill pass in purple `(103, 58, 183)` at `(0, 0)`, last. -/
def visibleTextPasses : List ((ℤ × ℤ) × Color) :=
  (visibleOutlineOffsets.map fun o => (o, ⟨255, 255, 255, 255⟩)) ++
    [((0, 0), ⟨103, 58, 183, 255⟩)]

/-- C7 counterexample: the outline pass of `create_visible_icon.py`
(outline radius 3) *does* draw at the center offset `(0, 0)` — its double
loop has no exclusion guard — contradicting the claim that every outline
pass excludes `(0, 0)`. -/
theorem visible_outline_contains_center :
    ((0 : ℤ), (0 : ℤ)) ∈ visibleOutlineOffsets := by
  decide

/-- C7 amended: `create_gold_icon.py`'s outline pass draws at exactly the
integer offsets with `max(|dx|, |dy|) ≤ 4` minus `(0, 0)`, while
`create_visible_icon.py`'s draws at *all* offsets with
`max(|dx|, |dy|) ≤ 3`, `(0, 0)` included; in both scripts the fill pass in
the target color is drawn last, occluding the outline at the origin. -/
theorem outline_offset_membership :
    (∀ dx dy : ℤ, (dx, dy) ∈ goldOutlineOffsets ↔
      (max |dx| |dy| ≤ 4 ∧ ¬ (dx = 0 ∧ dy = 0))) ∧
    (∀ dx dy : ℤ, (dx, dy) ∈ visibleOutlineOffsets ↔ max |dx| |dy| ≤ 3) ∧
    goldTextPasses.getLast? = some ((0, 0), ⟨255, 255, 255, 255⟩) ∧
    visibleTextPasses.getLast? = some ((0, 0), ⟨103, 58, 183, 255⟩) := by
  refine ⟨?_, ?_, ?_, ?_⟩
  · intro dx dy
    unfold goldOutlineOffsets
    simp only [List.mem_bind, List.mem_filterMap, mem_pyRange]
    constructor
    · rintro ⟨a, ⟨ha1, ha2⟩, b, ⟨hb1, hb2⟩, hif⟩
      by_cases hz : a ≠ 0 ∨ b ≠ 0
      · rw [if_pos hz] at hif
        rw [Option.some_inj, Prod.mk.injEq] at hif
        obtain ⟨rfl, rfl⟩ := hif
        constructor
        · simp only [max_le_iff, abs_le]
          omega
        · omega
      · rw [if_neg hz] at hif
        exact absurd hif (by simp)
    · rintro ⟨hmax, hz⟩
      simp only [max_le_iff, abs_le] at hmax
      refine ⟨dx, ⟨by omega, by omega⟩, dy, ⟨by omega, by omega⟩, ?_⟩
      rw [if_pos (by omega)]
  · intro dx dy
    unfold visibleOutlineOffsets
    simp only [List.mem_bind, List.mem_map, mem_pyRange, max_le_iff, abs_le,
      Prod.mk.injEq]
    constructor
    · rintro ⟨a, ⟨ha1, ha2⟩, b, ⟨hb1, hb2⟩, rfl, rfl⟩
      omega
    · rintro ⟨h1, h2⟩
      exact ⟨dx, ⟨by omega, by omega⟩, dy, ⟨by omega, by omega⟩, rfl, rfl⟩
  · rfl
  · rfl

/-- Witness for `outline_offset_membership`: the offset `(1, 0)` is drawn
by the gold outline pass, and `(0, 0)` by the visible one. -/
theorem outline_offset_membership_witness :
    ((1 : ℤ), (0 : ℤ)) ∈ goldOutlineOffsets ∧
    ((0 : ℤ), (0 : ℤ)) ∈ visibleOutlineOffsets := by
  exact ⟨(outline_offset_membership.1 1 0).mpr (by decide),
    (outline_offset_membership.2.1 0 0).mpr (by decide)⟩

/-- `create_gold_icon.py` shackle arc: pass `t` of 35
(`shackle_thickness`) draws a thin (width 4) arc over `[180°, 360°]` on the
base bbox `(sx, sy, ex, ey)` expanded outward by `t // 2` on each side. -/
def goldShacklePasses (sx sy ex ey : ℤ) : List (ℤ × ℤ × ℤ × ℤ) :=
  (List.range 35).map fun (t : ℕ) =>
    (sx - ((t / 2 : ℕ) : ℤ), sy - ((t / 2 : ℕ) : ℤ),
     ex + ((t / 2 : ℕ) : ℤ), ey + ((t / 2 : ℕ) : ℤ))

/-- `create_emoji_icon.py` shackle arc: pass `t` of 25 (`thickness`) draws
a thin (width 3) arc on the bbox expanded outward by `t // 2`. -/
def emojiShacklePasses (sx sy ex ey : ℤ) : List (ℤ × ℤ × ℤ × ℤ) :=
  (List.range 25).map fun (t : ℕ) =>
    (sx - ((t / 2 : ℕ) : ℤ), sy - ((t / 2 : ℕ) : ℤ),
     ex + ((t / 2 : ℕ) : ℤ), ey + ((t / 2 : ℕ) : ℤ))

/-- `create_visible_icon.py` shackle arc: pass `t` of 25 draws a thin
(width 3) arc on the bbox expanded outward by the *full* `t`, not
`t // 2`. -/
def visibleShacklePasses (sx sy ex ey : ℤ) : List (ℤ × ℤ × ℤ × ℤ) :=
  (List.range 25).map fun (t : ℕ) =>
    (sx - (t : ℤ), sy - (t : ℤ), ex + (t : ℤ), ey + (t : ℤ))

/-- C8 counterexample: at pass `t = 2` on the base bbox `(0, 0, 10, 10)`,
`create_visible_icon.py`'s arc loop expands the bbox by the full offset 2
(giving `(-2, -2, 12, 12)`), not by `t/2 = 1` (which would give
`(-1, -1, 11, 11)`, as `create_gold_icon.py` does): not every stroked-arc
pass expands by `t/2`. -/
theorem visible_shackle_full_expansion :
    (visibleShacklePasses 0 0 10 10).get? 2 = some (-2, -2, 12, 12) ∧
    (goldShacklePasses 0 0 10 10).get? 2 = some (-1, -1, 11, 11) ∧
    ((-2 : ℤ), (-2 : ℤ), (12 : ℤ), (12 : ℤ)) ≠
      ((-1 : ℤ), (-1 : ℤ), (11 : ℤ), (11 : ℤ)) := by
  decide

/-- C8 amended: each stroked arc performs exactly `strokeWidth` passes
`t = 0 … strokeWidth-1` (35 for the gold shackle, 25 for the emoji and
visible shackles); the gold and emoji passes expand the bbox outward by
`t // 2`, while the visible-icon passes expand it by the full `t`. -/
theorem shackle_pass_structure (sx sy ex ey : ℤ) :
    ((goldShacklePasses sx sy ex ey).length = 35 ∧
      ∀ t : ℕ, t < 35 → (goldShacklePasses sx sy ex ey).get? t =
        some (sx - ((t / 2 : ℕ) : ℤ), sy - ((t / 2 : ℕ) : ℤ),
          ex + ((t / 2 : ℕ) : ℤ), ey + ((t / 2 : ℕ) : ℤ))) ∧
    ((emojiShacklePasses sx sy ex ey).length = 25 ∧
      ∀ t : ℕ, t < 25 → (emojiShacklePasses sx sy ex ey).get? t =
        some (sx - ((t / 2 : ℕ) : ℤ), sy - ((t / 2 : ℕ) : ℤ),
          ex + ((t / 2 : ℕ) : ℤ), ey + ((t / 2 : ℕ) : ℤ))) ∧
    ((visibleShacklePasses sx sy ex ey).length = 25 ∧
      ∀ t : ℕ, t < 25 → (visibleShacklePasses sx sy ex ey).get? t =
        some (sx - (t : ℤ), sy - (t : ℤ), ex + (t : ℤ), ey + (t : ℤ))) := by
  refine ⟨⟨?_, ?_⟩, ⟨?_, ?_⟩, ⟨?_, ?_⟩⟩
  · simp [goldShacklePasses]
  · intro t ht
    rw [goldShacklePasses, List.get?_map, List.get?_range ht]
    rfl
  · simp [emojiShacklePasses]
  · intro t ht
    rw [emojiShacklePasses, List.get?_map, List.get?_range ht]
    rfl
  · simp [visibleShacklePasses]
  · intro t ht
    rw [visibleShacklePasses, List.get?_map, List.get?_range ht]
    rfl

/-- Witness for `shackle_pass_structure`: on the base bbox `(0, 0, 10, 10)`
at pass `t = 3`, the gold shackle draws on `(-1, -1, 11, 11)` (expansion
`3 // 2 = 1`) and the visible shackle on `(-3, -3, 13, 13)`. -/
theorem shackle_pass_structure_witness :
    (3 < 35 ∧ 3 < 25) ∧
    (goldShacklePasses 0 0 10 10).get? 3 = some (-1, -1, 11, 11) ∧
    (visibleShacklePasses 0 0 10 10).get? 3 = some (-3, -3, 13, 13) := by
  refine ⟨⟨by decide, by decide⟩, ?_, ?_⟩
  · rw [(shackle_pass_structure 0 0 10 10).1.2 3 (by decide)]
    decide
  · rw [(shackle_pass_structure 0 0 10 10).2.2.2 3 (by decide)]
    decide

/-- The Android launcher icon density-bucket sizes of
`create_android_icons.py`. -/
def androidIconSizes : List ℕ := [48, 72, 96, 144, 192]

/-- `create_android_icons.py` batch driver: if the main icon file is
missing, the script prints an error and calls `exit(1)` *before any
resize*, producing no outputs at all; otherwise it renders
`launcher_icon.png` and then `ic_launcher.png` for every density bucket. -/
def androidIconOutputs (iconExists : Bool) : List (String × ℕ) :=
  if iconExists then
    (androidIconSizes.map fun s => ("launcher_icon.png", s)) ++
      (androidIconSizes.map fun s => ("ic_launcher.png", s))
  else []

/-- `create_store_assets.py` driver: the feature graphic is always
produced (a placeholder circle replaces the icon paste when the icon file
is missing); the 512×512 store icon is produced only when the icon
exists. -/
def storeAssetOutputs (iconExists : Bool) : List String :=
  "feature_graphic.png" :: (if iconExists then ["app_icon_512.png"] else [])

/-- C9 counterexample: with the source icon missing,
`create_android_icons.py` produces *no* renders at all — `exit(1)` aborts
the whole batch — while with the icon present it produces ten; the batch
is not protected from a missing source asset. -/
theorem android_icons_batch_aborts :
    androidIconOutputs false = [] ∧ androidIconOutputs true ≠ [] := by
  decide

/-- C9 amended: only `create_store_assets.py` degrades gracefully — with
the icon missing it still renders the feature graphic (placeholder circle)
and silently skips the 512×512 store icon — whereas
`create_android_icons.py` aborts its entire ten-render batch with
`exit(1)` when the source icon is missing. -/
theorem missing_asset_sibling_behavior :
    storeAssetOutputs false = ["feature_graphic.png"] ∧
    storeAssetOutputs true = ["feature_graphic.png", "app_icon_512.png"] ∧
    androidIconOutputs false = [] ∧
    (androidIconOutputs true).length = 10 := by
  refine ⟨rfl, rfl, rfl, rfl⟩

end Furl
